import Mathlib

/-!
Verification of the prompt-assembly pipeline of `ai-prompt-helper`
(`src/makePrompt.py`, `src/getPaths.py`).

Shallow embedding conventions:
* Python strings are Lean `String`s; line-oriented operations are defined on
  `List Char` and lifted.  Text is assumed to use `'\n'` newlines (Python's
  `splitlines` also splits on `'\r'` and rarer line breaks; the claims under
  study only involve `'\n'`-separated text).
* `re.sub` calls of `makePrompt.remove_comments` are modelled by dedicated
  recursive functions, one per regex shape, documented at their definitions.
* File-system effects (`os.walk`, `open`, manifests) are modelled by explicit
  oracles: a `FileSystem` record of pure functions, and a fuel parameter
  bounding directory-recursion depth.
* `tiktoken` is modelled as a value of type `Except Unit (String → Option Nat)`:
  `.error` is a failing `tiktoken.encoding_for_model` call, and a `none` result
  of an encoder models an exception raised by `encoding.encode`.
-/

namespace MakePrompt

/-- Python whitespace characters stripped by `str.strip` / `str.rstrip`
(ASCII subset: space, tab, newline, carriage return, vertical tab, form feed). -/
def isPySpace (c : Char) : Bool :=
  c = ' ' || c = '\t' || c = '\n' || c = '\r' || c = Char.ofNat 11 || c = Char.ofNat 12

/-- `str.rstrip()` on a single line (no newline inside). -/
def pyRstrip (l : List Char) : List Char :=
  (l.reverse.dropWhile isPySpace).reverse

/-- `str.lstrip()` (whitespace form). -/
def pyLstripWs (l : List Char) : List Char :=
  l.dropWhile isPySpace

/-- `str.strip()`. -/
def pyStripChars (l : List Char) : List Char :=
  pyRstrip (pyLstripWs l)

/-- `str.strip()` lifted to `String`. -/
def pyStripStr (s : String) : String :=
  ⟨pyStripChars s.data⟩

/-- Python `str.splitlines()` for `'\n'`-separated text: yields the lines
without their terminators; a final `'\n'` produces no trailing empty line and
`""` has no lines at all. -/
def pySplitlinesChars : List Char → List (List Char)
  | [] => []
  | c :: rest =>
      if c = '\n' then [] :: pySplitlinesChars rest
      else
        match pySplitlinesChars rest with
        | [] => [[c]]
        | l :: ls => (c :: l) :: ls

/-- Split at every `'\n'`, keeping a (possibly empty) final segment, so that
`joinNlChars` is a strict inverse.  Used to model regexes that must preserve
the trailing-newline structure of the text. -/
def splitNlChars : List Char → List (List Char)
  | [] => [[]]
  | c :: rest =>
      if c = '\n' then [] :: splitNlChars rest
      else
        match splitNlChars rest with
        | [] => [[c]]
        | l :: ls => (c :: l) :: ls

/-- `"\n".join` on raw char lines. -/
def joinNlChars : List (List Char) → List Char
  | [] => []
  | [l] => l
  | l :: ls => l ++ '\n' :: joinNlChars ls

theorem splitNlChars_ne_nil (l : List Char) : splitNlChars l ≠ [] := by
  cases l with
  | nil => simp [splitNlChars]
  | cons c rest =>
      simp only [splitNlChars]
      split
      · simp
      · cases h : splitNlChars rest <;> simp

theorem splitNlChars_cons_nl (r : List Char) :
    splitNlChars ('\n' :: r) = [] :: splitNlChars r := by
  simp [splitNlChars]

theorem splitNlChars_cons_other {c : Char} (hc : c ≠ '\n') (r : List Char) :
    splitNlChars (c :: r) =
      match splitNlChars r with
      | [] => [[c]]
      | l :: ls => (c :: l) :: ls := by
  simp [splitNlChars, hc]

theorem pySplitlinesChars_cons_nl (r : List Char) :
    pySplitlinesChars ('\n' :: r) = [] :: pySplitlinesChars r := by
  simp [pySplitlinesChars]

theorem pySplitlinesChars_cons_other {c : Char} (hc : c ≠ '\n') (r : List Char) :
    pySplitlinesChars (c :: r) =
      match pySplitlinesChars r with
      | [] => [[c]]
      | l :: ls => (c :: l) :: ls := by
  simp [pySplitlinesChars, hc]

theorem joinNl_splitNl (l : List Char) : joinNlChars (splitNlChars l) = l := by
  induction l with
  | nil => rfl
  | cons c rest ih =>
      by_cases hc : c = '\n'
      · subst hc
        rw [splitNlChars_cons_nl]
        cases h : splitNlChars rest with
        | nil => exact absurd h (splitNlChars_ne_nil rest)
        | cons a as =>
            rw [h] at ih
            show joinNlChars ([] :: a :: as) = '\n' :: rest
            simp only [joinNlChars, List.nil_append]
            rw [ih]
      · rw [splitNlChars_cons_other hc]
        cases h : splitNlChars rest with
        | nil => exact absurd h (splitNlChars_ne_nil rest)
        | cons a as =>
            rw [h] at ih
            cases as with
            | nil => simp only [joinNlChars] at ih ⊢; rw [ih]
            | cons b bs =>
                simp only [joinNlChars] at ih ⊢
                rw [List.cons_append, ih]

/-- When the text does not end with `'\n'` (and is nonempty), Python
`splitlines` agrees with the strict split. -/
theorem pySplitlines_eq_splitNl (l : List Char) (h : l.getLast? ≠ some '\n') :
    pySplitlinesChars l = if l = [] then [] else splitNlChars l := by
  induction l with
  | nil => rfl
  | cons c rest ih =>
      simp only [if_neg (List.cons_ne_nil c rest)]
      by_cases hc : c = '\n'
      · subst hc
        cases rest with
        | nil => simp [List.getLast?] at h
        | cons d ds =>
            have hrest : (d :: ds).getLast? ≠ some '\n' := by
              rwa [List.getLast?_cons_cons] at h
            have hg := ih hrest
            simp only [if_neg (List.cons_ne_nil d ds)] at hg
            rw [pySplitlinesChars_cons_nl, splitNlChars_cons_nl, hg]
      · have hrest : rest.getLast? ≠ some '\n' := by
          cases rest with
          | nil => simp [List.getLast?]
          | cons d ds => rwa [List.getLast?_cons_cons] at h
        have hg := ih hrest
        rw [pySplitlinesChars_cons_other hc, splitNlChars_cons_other hc]
        cases hr : rest with
        | nil => rfl
        | cons d ds =>
            rw [hr] at hg
            simp only [if_neg (List.cons_ne_nil d ds)] at hg
            rw [hg]

/-! ### POSIX path helpers (`os.path` as used by the scripts) -/

/-- `os.path.join(a, b)` for POSIX paths (the two-argument form used in the
source): an absolute second component discards the first. -/
def os_path_join (a b : String) : String :=
  if b.data.take 1 = ['/'] then b
  else if a = "" then b
  else if a.data.getLast? = some '/' then a ++ b
  else a ++ "/" ++ b

/-- `os.path.basename(p)`: the part after the last `'/'`. -/
def os_basename (p : String) : String :=
  ⟨(p.data.reverse.takeWhile (fun c => c ≠ '/')).reverse⟩

/-- Extension part of a basename, per `os.path.splitext`: the suffix starting
at the last `'.'`, except that leading dots of the basename never start an
extension. -/
def extOfBasename (b : List Char) : List Char :=
  let rest := b.dropWhile (fun c => c = '.')
  if rest.contains '.' then '.' :: (rest.reverse.takeWhile (fun c => c ≠ '.')).reverse
  else []

/-- `os.path.splitext(p)[1]`. -/
def os_splitext_ext (p : String) : String :=
  ⟨extOfBasename (os_basename p).data⟩

/-! ### `makePrompt.py` constants -/

/-- `CODE_FILES` (list of extensions rendered with a code fence). -/
def CODE_FILES : List String :=
  [".blade.php", ".php", ".css", ".env", ".html", ".js", ".svelte", ".json",
   ".md", ".sql", ".cs", ".diff", ".csv", ".tree"]

/-- `LANGUAGE_MAP` as a partial lookup (Python dict `.get`). -/
def LANGUAGE_MAP (ext : String) : Option String :=
  if ext = ".blade.php" then some "php"
  else if ext = ".php" then some "php"
  else if ext = ".css" then some "css"
  else if ext = ".env" then some "plaintext"
  else if ext = ".html" then some "html"
  else if ext = ".js" then some "javascript"
  else if ext = ".svelte" then some "javascript"
  else if ext = ".json" then some "json"
  else if ext = ".md" then some "markdown"
  else if ext = ".sql" then some "sql"
  else if ext = ".cs" then some "csharp"
  else if ext = ".diff" then some "diff"
  else if ext = ".csv" then some ""
  else none

/-! ### Normalization pipeline (`makePrompt.py` lines 44-162) -/

/-- `count_tokens(content, encoding)`: `len(encoding.encode(content))` with any
exception (including `encoding` being `None`) caught and turned into `0`. -/
def count_tokens (content : String) (encoding : Option (String → Option Nat)) : Nat :=
  match encoding with
  | none => 0
  | some enc =>
      match enc content with
      | some n => n
      | none => 0

/-- `prefix_with_line_numbers(content, line_numbers)`: rewrite each line of
`content.splitlines()` as `"<i+1>|<line>"` and re-join with `'\n'`. -/
def prefix_with_line_numbers (content : String) (line_numbers : Bool) : String :=
  if line_numbers then
    ⟨joinNlChars ((pySplitlinesChars content.data).enum.map
        (fun p => (toString (p.1 + 1)).data ++ '|' :: p.2))⟩
  else content

/-- The `import_startswith` dict of `remove_non_crucial_lines`.  In the source
the literal contains the key `'.sql'` twice (`'USE '`, then `'using '`); the
second entry wins, as in Python. -/
def import_startswith (ext : String) : Option String :=
  if ext = ".php" then some "use "
  else if ext = ".js" then some "import "
  else if ext = ".svelte" then some "import "
  else if ext = ".css" then some "@import "
  else if ext = ".sql" then some "using "
  else if ext = ".cs" then some "using "
  else none

/-- `line.split('|', 1)[1]` (everything after the first `'|'`); only evaluated
by the source when every line contains `'|'`. -/
def afterFirstBar (l : List Char) : List Char :=
  (l.dropWhile (fun c => c ≠ '|')).drop 1

/-- `remove_non_crucial_lines(content, extension, concise)`.  Note that the
source's only caller passes the whole *filename* as `extension`, and the
function looks that argument up directly in `import_startswith`. -/
def remove_non_crucial_lines (content : String) (extension : String) (concise : Bool) : String :=
  match concise with
  | false => content
  | true =>
      let lines := pySplitlinesChars content.data
      let prefixed_content := lines.all (fun line => line.contains '|')
      let get_content_of_line := fun (line : List Char) =>
        if prefixed_content then pyStripChars (afterFirstBar line) else pyStripChars line
      let lines2 :=
        match import_startswith extension with
        | some marker =>
            lines.filter (fun line => !(marker.data.isPrefixOf (get_content_of_line line)))
        | none => lines
      ⟨joinNlChars lines2⟩

/-- `detect_full_extension(filename)`. -/
def detect_full_extension (filename : String) : String :=
  if os_basename filename = ".env" then ".env"
  else
    let ext := os_splitext_ext filename
    if ext = ".php" && ".blade.php".data.isSuffixOf filename.data then ".blade.php"
    else ext

/-- A single comment grammar entry of the `comment_rules` dict:
`.blade.php` is special-cased by the code before tuple unpacking. -/
inductive CommentRule where
  | blade
  | std (single : Option (List Char)) (multi : Option (List Char × List Char))

/-- The `comment_rules` dict. -/
def comment_rules (ext : String) : Option CommentRule :=
  if ext = ".blade.php" then some .blade
  else if ext = ".php" then some (.std (some "//".data) (some ("/*".data, "*/".data)))
  else if ext = ".js" then some (.std (some "//".data) (some ("/*".data, "*/".data)))
  else if ext = ".svelte" then some (.std (some "//".data) (some ("/*".data, "*/".data)))
  else if ext = ".json" then some (.std (some "//".data) (some ("/*".data, "*/".data)))
  else if ext = ".css" then some (.std none (some ("/*".data, "*/".data)))
  else if ext = ".html" then some (.std none (some ("<!--".data, "-->".data)))
  else if ext = ".env" then some (.std (some "#".data) none)
  else if ext = ".sql" then some (.std (some "--".data) (some ("/*".data, "*/".data)))
  else if ext = ".cs" then some (.std (some "//".data) (some ("/*".data, "*/".data)))
  else none

/-- Is the character in the regex class `[ \t]`? -/
def isSpTab (c : Char) : Bool := c = ' ' || c = '\t'

/-- First occurrence of `pat` in `l`: `some (pre, suf)` with
`l = pre ++ pat ++ suf` at the leftmost match. -/
def splitFirst (pat : List Char) : List Char → Option (List Char × List Char)
  | [] => if pat.isPrefixOf ([] : List Char) then some ([], []) else none
  | c :: rest =>
      if pat.isPrefixOf (c :: rest) then some ([], (c :: rest).drop pat.length)
      else
        match splitFirst pat rest with
        | some (pre, suf) => some (c :: pre, suf)
        | none => none

/-- `re.sub(re.escape(single) + r'.*$', '', line)` restricted to one line:
truncate at the first occurrence of the marker. -/
def truncBefore (m : List Char) : List Char → List Char
  | [] => []
  | c :: rest =>
      if m.isPrefixOf (c :: rest) then []
      else c :: truncBefore m rest

/-- Whole-line deletion on the strict line decomposition, modelling
`re.sub(r'^[ \t]*' + m + r'.*[ \t]*$\n?', '', content, flags=re.MULTILINE)`:
a matching line is removed together with its following newline; a matching
final line (no trailing newline) leaves an empty final line, preserving the
newline before it. -/
def removeLinesAux (p : List Char → Bool) : List (List Char) → List (List Char)
  | [] => []
  | [x] => if p x then [[]] else [x]
  | x :: y :: xs => if p x then removeLinesAux p (y :: xs) else x :: removeLinesAux p (y :: xs)

/-- The full-line single-comment deletion pass. -/
def removeFullLineSingle (content : String) (m : List Char) : String :=
  ⟨joinNlChars (removeLinesAux
      (fun line => m.isPrefixOf (line.dropWhile isSpTab)) (splitNlChars content.data))⟩

/-- The inline single-comment deletion pass
(`re.sub(m + r'.*$', '', content, flags=re.MULTILINE)`). -/
def removeInlineSingle (content : String) (m : List Char) : String :=
  ⟨joinNlChars ((splitNlChars content.data).map (truncBefore m))⟩

/-- `re.sub(ms + '.*?' + me, '', content, flags=re.DOTALL)`: repeatedly delete
from the leftmost `ms` through the first following `me`; scanning resumes after
the deletion.  `fuel` bounds the number of deletions (each one shortens the
text, so `length + 1` always suffices). -/
def rimAux (ms me : List Char) : Nat → List Char → List Char
  | 0, l => l
  | Nat.succ f, l =>
      match splitFirst ms l with
      | none => l
      | some (pre, after1) =>
          match splitFirst me after1 with
          | none => l
          | some (_, after2) => pre ++ rimAux ms me f after2

/-- Inline multi-line comment removal, as a `String` transformer. -/
def removeInlineMulti (content : String) (ms me : List Char) : String :=
  ⟨rimAux ms me (content.data.length + 1) content.data⟩

/-- Helper for the full-line multi-line pass: given the text right after `ms`,
find the first `me` that is followed by only `[ \t]` until a line end, and
return the text after that line end (the optional `'\n'` consumed). -/
def findMultiEnd (me : List Char) : List Char → Option (List Char)
  | [] => none
  | c :: rest =>
      if me.isPrefixOf (c :: rest) then
        let afterSp := ((c :: rest).drop me.length).dropWhile isSpTab
        match afterSp with
        | [] => some []
        | d :: r => if d = '\n' then some r else findMultiEnd me rest
      else findMultiEnd me rest

/-- `re.sub(r'^[ \t]*' + ms + r'.*?' + me + r'[ \t]*$\n?', '', content,
flags=re.MULTILINE | re.DOTALL)`: at each line start whose line begins (after
`[ \t]*`) with `ms`, delete non-greedily through the first `me` that closes a
line, including that line's newline; otherwise move to the next line. -/
def rflmAux (ms me : List Char) : Nat → List Char → List Char
  | 0, l => l
  | Nat.succ f, l =>
      let line := l.takeWhile (fun c => c ≠ '\n')
      let candidate := ms.isPrefixOf (line.dropWhile isSpTab)
      let matched :=
        if candidate then findMultiEnd me ((l.dropWhile isSpTab).drop ms.length)
        else none
      match matched with
      | some remaining => rflmAux ms me f remaining
      | none =>
          match l.dropWhile (fun c => c ≠ '\n') with
          | [] => l
          | _ :: rest => line ++ '\n' :: rflmAux ms me f rest

/-- Full-line multi-line comment removal, as a `String` transformer. -/
def removeFullLineMulti (content : String) (ms me : List Char) : String :=
  ⟨rflmAux ms me (content.data.length + 1) content.data⟩

/-- `remove_comments(content, extension, keep_comments)`; the only caller
passes the filename as `extension`, and `detect_full_extension` is applied to
it inside. -/
def remove_comments (content : String) (extension : String) (keep_comments : Bool) : String :=
  match keep_comments with
  | true => content
  | false =>
      let full_extension := detect_full_extension extension
      match comment_rules full_extension with
      | none => content
      | some .blade =>
          let c1 := removeInlineMulti content "\x7b\x7b--".data "--\x7d\x7d".data
          removeInlineMulti c1 "<!--".data "-->".data
      | some (.std single multi) =>
          let c1 :=
            match multi with
            | some pair => removeInlineMulti (removeFullLineMulti content pair.1 pair.2) pair.1 pair.2
            | none => content
          match single with
          | some s => removeInlineSingle (removeFullLineSingle c1 s) s
          | none => c1

/-- `clean_content(content)`: right-strip every line of `splitlines()` and
re-join with `'\n'` (dropping any final newline of the original text). -/
def clean_content (content : String) : String :=
  ⟨joinNlChars ((pySplitlinesChars content.data).map pyRstrip)⟩

/-- The normalization applied per file by `concat_files` (lines 191-194), in
source order: line numbering, comment stripping, concise stripping, trimming.
Both `remove_comments` and `remove_non_crucial_lines` receive the filename. -/
def normalize_content (filename content : String)
    (keep_comments line_numbers concise : Bool) : String :=
  clean_content
    (remove_non_crucial_lines
      (remove_comments
        (prefix_with_line_numbers content line_numbers)
        filename keep_comments)
      filename concise)

/-! ### File-system model and directory traversal -/

/-- A directory's content as reported by the OS: file names and subdirectory
entries, each in the (arbitrary) order `os.scandir` yields them.  `os.walk`
preserves exactly this order; no sorting is applied anywhere in the source. -/
inductive FSTree where
  | mk (files : List String) (dirs : List (String × FSTree))

/-- `gather_files(directory_path)` (makePrompt line 40-42): flatten
`os.walk` top-down — the files of each directory (joined onto the walk root),
then each subdirectory recursively, all in listing order.  `fuel` bounds the
recursion depth; any `fuel` at least the tree height is exact. -/
def walkDirFuel : Nat → String → FSTree → List String
  | 0, _, _ => []
  | Nat.succ f, path, .mk files dirs =>
      files.map (fun fn => os_path_join path fn) ++
        dirs.flatMap (fun dt => walkDirFuel f (os_path_join path dt.1) dt.2)

/-- `q` is (the joined path of) a file somewhere under the tree rooted at
prefix path `p`. -/
inductive HasFile : String → FSTree → String → Prop where
  | file {p fn files dirs} : fn ∈ files → HasFile p (.mk files dirs) (os_path_join p fn)
  | sub {p d t files dirs q} : (d, t) ∈ dirs → HasFile (os_path_join p d) t q →
      HasFile p (.mk files dirs) q

/-! ### `getPaths.py`: ignore-aware listing used to build manifests -/

/-- `dirs.remove('.git')` guarded by `'.git' in dirs`: drop the first
subdirectory entry named `.git` (getPaths lines 14-16). -/
def removeGit : List (String × FSTree) → List (String × FSTree)
  | [] => []
  | (n, t) :: rest => if n = ".git" then rest else (n, t) :: removeGit rest

/-- `list_all_files_in_directory(directory, file_types, gitignore_spec)`
(getPaths lines 12-28): walk with `.git` pruned at every level, compute each
file's directory-relative path, skip paths matched by the ignore spec, and
keep only files whose *name* ends with one of `file_types` (if given).
`rel` is the relative path of the current directory (`""` at the root);
`spec` is the loaded `PathSpec` as a pure matcher. -/
def list_all_files_in_directory : Nat → String → FSTree →
    Option (String → Bool) → Option (List String) → List String
  | 0, _, _, _, _ => []
  | Nat.succ f, rel, .mk files dirs, spec, file_types =>
      let dirs2 := removeGit dirs
      (files.filterMap (fun file =>
        let file_path := os_path_join rel file
        if (match spec with | some g => g file_path | none => false) then none
        else if (match file_types with
                 | some fts => fts.any (fun ft => ft.data.isSuffixOf file.data)
                 | none => true) then some file_path
        else none)) ++
        dirs2.flatMap (fun dt =>
          list_all_files_in_directory f (os_path_join rel dt.1) dt.2 spec file_types)

/-- The tree with every `.git` subdirectory entry removed, to any depth. -/
def pruneGitFuel : Nat → FSTree → FSTree
  | 0, t => t
  | Nat.succ f, .mk files dirs =>
      .mk files ((removeGit dirs).map (fun dt => (dt.1, pruneGitFuel f dt.2)))

/-! ### Manifest parsing (`gather_files_from_input`, makePrompt lines 232-265) -/

/-- Strip all leading `'/'` characters (`line.lstrip("/")`). -/
def lstripSlashes (s : String) : String :=
  ⟨s.data.dropWhile (fun c => c = '/')⟩

/-- `str.replace(pat, '')`: delete all non-overlapping occurrences of `pat`,
scanning left to right.  `fuel` bounds the number of deletions. -/
def removeAllOccChars (pat : List Char) : Nat → List Char → List Char
  | 0, l => l
  | Nat.succ f, l =>
      match splitFirst pat l with
      | none => l
      | some (pre, suf) => pre ++ removeAllOccChars pat f suf

/-- The new current target extracted from a (stripped) `TARGET:` line:
`line.replace("TARGET:", "").strip()`. -/
def target_of_stripped (line : String) : String :=
  pyStripStr ⟨removeAllOccChars "TARGET:".data (line.data.length + 1) line.data⟩

/-- How a path line is resolved:
`os.path.join(current_target, line.lstrip("/")) if current_target else line`.
The Python condition is a truthiness test, falsy both for `None` and for an
empty target (a bare `TARGET:` line sets the root to `""`), in which case the
line is kept verbatim. -/
def resolve_path (tgt : Option String) (line : String) : String :=
  match tgt with
  | some t => if t = "" then line else os_path_join t (lstripSlashes line)
  | none => line

/-- One iteration of the manifest loop: state is
(accumulated `(full_path, original_path)` pairs, current target). -/
def manifest_step (st : List (String × String) × Option String) (rawLine : String) :
    List (String × String) × Option String :=
  let line := pyStripStr rawLine
  if line = "" then st
  else if "TARGET:".data.isPrefixOf line.data then
    (st.1, some (target_of_stripped line))
  else if "#".data.isPrefixOf line.data then st
  else
    (st.1 ++ [(resolve_path st.2 line, line)], st.2)

/-- The manifest branch of `gather_files_from_input`: fold the loop over the
manifest's lines (each line given without its trailing newline, which
`line.strip()` would remove anyway). -/
def gather_files_from_manifest (lines : List String) :
    List (String × String) × Option String :=
  lines.foldl manifest_step ([], none)

/-- The oracle for all file-system queries the script makes. -/
structure FileSystem where
  isdir : String → Bool
  isfile : String → Bool
  tree : String → FSTree
  manifestLines : String → List String
  readfile : String → Option String

/-- `gather_files_from_input(input_path, debug)` (debug printing omitted):
directory → walk; file → manifest parse; otherwise the fall-through
`return source_files, current_target` yields `([], None)`. -/
def gather_files_from_input (fuel : Nat) (fs : FileSystem) (input_path : String) :
    List (String × String) × Option String :=
  if fs.isdir input_path then
    ((walkDirFuel fuel input_path (fs.tree input_path)).map (fun f => (f, f)), none)
  else if fs.isfile input_path then
    gather_files_from_manifest (fs.manifestLines input_path)
  else ([], none)

/-! ### Chunked assembler (`concat_files`, makePrompt lines 164-230) -/

/-- The flags `concat_files` receives (plus `args.concise`, read globally). -/
structure ConcatArgs where
  output_base : String
  max_tokens : Option Nat
  keep_comments : Bool
  line_numbers : Bool
  show_full_path : Bool
  show_path : Bool
  concise : Bool

/-- The Python condition `max_tokens and current_tokens > max_tokens`
(`None` and `0` are both falsy). -/
def budget_exceeded (max_tokens : Option Nat) (current : Nat) : Bool :=
  match max_tokens with
  | none => false
  | some b => if b = 0 then false else decide (b < current)

/-- An output document written by the assembler.  `buffer` is the exact text
written; `files` records, in order, the `(filename, file_tokens)` of each
rendering appended to the buffer. -/
structure SealedPart where
  name : String
  buffer : String
  files : List (String × Nat)
  tokens : Nat

/-- Loop state of `concat_files`. -/
structure CState where
  bufStr : String
  bufFiles : List (String × Nat)
  current_part : Nat
  current_tokens : Nat
  parts : List SealedPart
  rows : List (String × Option Nat)

/-- The separator inserted between blocks within one part. -/
def SEPARATOR : String :=
  "\n\n\n--------------------------------------------------------------------------------\n\n\n\n"

/-- Strip leading byte-order marks: `content.lstrip("﻿")`. -/
def stripBom (s : String) : String :=
  ⟨s.data.dropWhile (fun c => c = Char.ofNat 0xFEFF)⟩

/-- The rendered block appended to the buffer for one file (separator included
when the buffer is nonempty). -/
def render_block (cfg : ConcatArgs) (bufStr : String)
    (filename original_filename content : String) : String :=
  let code_file := CODE_FILES.any (fun e => e.data.isSuffixOf filename.data)
  let extension := os_splitext_ext filename
  let language := (LANGUAGE_MAP extension).getD "plaintext"
  let separator := if bufStr = "" then "" else SEPARATOR
  let displayed_filename :=
    if cfg.show_path then original_filename
    else if cfg.show_full_path then filename
    else os_basename filename
  separator ++ displayed_filename ++ ":\n" ++
    (if code_file then "```" ++ language ++ "\n" else "\"\"\"\n") ++
    stripBom content ++ "\n" ++
    (if code_file then "```\n" else "\"\"\"\n")

/-- One iteration of the `concat_files` loop.  A failed read models the caught
per-file exception (error printed, stream continues); whitespace-only content
is skipped with a blank row. -/
def concat_step (cfg : ConcatArgs) (readf : String → Option String)
    (encoding : Option (String → Option Nat)) (st : CState) (fo : String × String) :
    CState :=
  match readf fo.1 with
  | none =>
      { bufStr := st.bufStr, bufFiles := st.bufFiles, current_part := st.current_part,
        current_tokens := st.current_tokens, parts := st.parts,
        rows := st.rows ++ [(fo.1, none)] }
  | some content0 =>
      if pyStripChars content0.data = [] then
        { bufStr := st.bufStr, bufFiles := st.bufFiles, current_part := st.current_part,
          current_tokens := st.current_tokens, parts := st.parts,
          rows := st.rows ++ [(fo.1, none)] }
      else
        let content := normalize_content fo.1 content0
          cfg.keep_comments cfg.line_numbers cfg.concise
        let file_tokens := count_tokens content encoding
        let current_tokens := st.current_tokens + file_tokens
        let bufStr := st.bufStr ++ render_block cfg st.bufStr fo.1 fo.2 content
        let bufFiles := st.bufFiles ++ [(fo.1, file_tokens)]
        let rows := st.rows ++ [(fo.1, some file_tokens)]
        if budget_exceeded cfg.max_tokens current_tokens then
          { bufStr := "", bufFiles := [], current_part := st.current_part + 1,
            current_tokens := 0,
            parts := st.parts ++
              [{ name := cfg.output_base ++ "_part" ++ toString st.current_part ++ ".md",
                 buffer := bufStr, files := bufFiles, tokens := current_tokens }],
            rows := rows }
        else
          { bufStr := bufStr, bufFiles := bufFiles, current_part := st.current_part,
            current_tokens := current_tokens, parts := st.parts, rows := rows }

/-- What `concat_files` leaves behind: the console rows, the parts sealed
inside the loop, the final flush (if the buffer is nonempty), and the
function's return value. -/
structure ConcatResult where
  rows : List (String × Option Nat)
  parts : List SealedPart
  finalPart : Option SealedPart
  returned : Option String

/-- `concat_files(filenames, output_base, max_tokens, ...)`. -/
def concat_files (cfg : ConcatArgs) (readf : String → Option String)
    (encoding : Option (String → Option Nat)) (filenames : List (String × String)) :
    ConcatResult :=
  let init : CState :=
    { bufStr := "", bufFiles := [], current_part := 1, current_tokens := 0,
      parts := [], rows := [] }
  let st := filenames.foldl (concat_step cfg readf encoding) init
  if st.bufStr = "" then
    { rows := st.rows, parts := st.parts, finalPart := none, returned := none }
  else
    let output_filename :=
      if 1 < st.current_part then
        cfg.output_base ++ "_part" ++ toString st.current_part ++ ".md"
      else cfg.output_base ++ ".md"
    { rows := st.rows, parts := st.parts,
      finalPart := some { name := output_filename, buffer := st.bufStr,
                          files := st.bufFiles, tokens := st.current_tokens },
      returned := some output_filename }

/-! ### The `__main__` driver (makePrompt lines 267-290) -/

/-- The command-line arguments (with their argparse defaults). -/
structure MainArgs where
  input_path : String
  output : String
  line_numbers : Bool
  keep_comments : Bool
  show_full_path : Bool
  show_path : Bool
  max_tokens : Option Nat
  concise : Bool

/-- The `try: encoding = tiktoken.encoding_for_model('gpt-4') except: encoding
= None` block: a failing lookup (e.g. unknown model) is downgraded to `None`
and the run continues. -/
def setup_encoding (tiktokenResult : Except Unit (String → Option Nat)) :
    Option (String → Option Nat) :=
  match tiktokenResult with
  | .ok e => some e
  | .error _ => none

/-- Everything observable about one completed run of the script. -/
structure MainResult where
  source_files : List (String × String)
  target : Option String
  encoding : Option (String → Option Nat)
  result : ConcatResult
  exitCode : Nat

/-- The `__main__` body: gather, set up the tokenizer, concatenate.  Within the
modelled fragment every exception is caught (tokenizer setup, per-file
processing), so a run that reaches the end exits with code 0. -/
def main_run (fuel : Nat) (fs : FileSystem)
    (tiktokenResult : Except Unit (String → Option Nat)) (args : MainArgs) :
    MainResult :=
  let g := gather_files_from_input fuel fs args.input_path
  let encoding := setup_encoding tiktokenResult
  let cfg : ConcatArgs :=
    { output_base := args.output, max_tokens := args.max_tokens,
      keep_comments := args.keep_comments, line_numbers := args.line_numbers,
      show_full_path := args.show_full_path, show_path := args.show_path,
      concise := args.concise }
  let res := concat_files cfg fs.readfile encoding g.1
  { source_files := g.1, target := g.2, encoding := encoding, result := res,
    exitCode := 0 }

/-! ### Generic helper lemmas -/

theorem foldl_preserves {σ α : Type _} (f : σ → α → σ) (P : σ → Prop)
    (hstep : ∀ s a, P s → P (f s a)) :
    ∀ (l : List α) (s : σ), P s → P (l.foldl f s) := by
  intro l
  induction l with
  | nil => intro s hs; exact hs
  | cons a as ih => intro s hs; exact ih (f s a) (hstep s a hs)

/-! ## C1 — concise mode and the import-marker lookup

The claim (and the function's own docstring, and the `--concise` help text)
says import-style lines are dropped for files whose simple extension has a
registered marker.  The code passes the whole filename as the `extension`
argument and looks that up directly in `import_startswith`, so for any
ordinary filename (e.g. `app.js`) the lookup misses and nothing is dropped;
the marker only fires when the filename is literally the extension. -/

/-- C1: in concise mode, a `.js` file named `app.js` keeps its `import` lines,
with and without line numbering and through the full per-file pipeline,
because `remove_non_crucial_lines` receives the filename `"app.js"` and fails
the `extension in import_startswith` test; only a file literally named `.js`
gets its import lines dropped. -/
theorem C1_concise_marker_lookup_bug :
    remove_non_crucial_lines "import foo\nlet x = 1" "app.js" true
      = "import foo\nlet x = 1" ∧
    remove_non_crucial_lines (prefix_with_line_numbers "import foo\nlet x = 1" true)
      "app.js" true = "1|import foo\n2|let x = 1" ∧
    normalize_content "app.js" "import foo\nlet x = 1" true false true
      = "import foo\nlet x = 1" ∧
    remove_non_crucial_lines "import foo\nlet x = 1" ".js" true = "let x = 1" ∧
    remove_non_crucial_lines (prefix_with_line_numbers "import foo\nlet x = 1" true)
      ".js" true = "2|let x = 1" := by
  refine ⟨?_, ?_, ?_, ?_, ?_⟩ <;> rfl

/-! ## C10 — comment stripping on line-number-prefixed text -/

/-- C10: with line numbering on, a line whose content after the `N|` prefix is
exactly a single-line comment is not removed as a whole line (the whole-line
regex requires the marker after only spaces/tabs, but the line starts with the
digit of the prefix); the inline rule then deletes from the marker to the end
of the line, leaving the bare `N|` residue.  This holds for every extension
with a registered single-line marker (`.js`, `.php`, `.svelte`, `.json`,
`.cs`, `.sql`, `.env`); without numbering the same line is removed entirely. -/
theorem C10_prefix_comment_residue :
    remove_comments (prefix_with_line_numbers "// hi" true) "f.js" false = "1|" ∧
    remove_comments (prefix_with_line_numbers "// hi" true) "f.php" false = "1|" ∧
    remove_comments (prefix_with_line_numbers "// hi" true) "f.svelte" false = "1|" ∧
    remove_comments (prefix_with_line_numbers "// hi" true) "f.json" false = "1|" ∧
    remove_comments (prefix_with_line_numbers "// hi" true) "f.cs" false = "1|" ∧
    remove_comments (prefix_with_line_numbers "-- hi" true) "f.sql" false = "1|" ∧
    remove_comments (prefix_with_line_numbers "# hi" true) "f.env" false = "1|" ∧
    remove_comments (prefix_with_line_numbers "let x = 1\n// hi" true) "f.js" false
      = "1|let x = 1\n2|" ∧
    remove_comments "// hi" "f.js" false = "" ∧
    normalize_content "f.js" "// hi" false true false = "1|" := by
  refine ⟨?_, ?_, ?_, ?_, ?_, ?_, ?_, ?_, ?_, ?_⟩ <;> rfl

/-! ## C6 — round-trip of the normalization pipeline

With `keep_comments=true, concise=false, line_numbers=false` the pipeline
reduces to `clean_content`, which right-strips every line and re-joins with
`'\n'` — dropping a trailing newline of the source.  So byte-identity fails
for any file ending in a newline; it holds exactly for text already in
clean form. -/

/-- C6 counterexample: the pipeline with `keep_comments=true, concise=false,
line_numbers=false` maps `"x\n"` to `"x"`, which differs from the source —
the claimed byte-identity round-trip fails on any content with a trailing
newline (and likewise on trailing whitespace, which `clean_content` strips). -/
theorem C6_roundtrip_trailing_newline_cex :
    normalize_content "f.js" "x\n" true false false = "x" ∧
    ("x" : String) ≠ "x\n" := by
  exact ⟨rfl, by decide⟩

/-- C6 amended: for `'\n'`-newline text in clean form — no line carries
trailing whitespace and the text does not end with a newline — the pipeline
under `keep_comments=true, concise=false, line_numbers=false` is the
identity. -/
theorem C6_roundtrip_clean_form (fn content : String)
    (hr : '\r' ∉ content.data)
    (hl : ∀ l ∈ pySplitlinesChars content.data, pyRstrip l = l)
    (he : content.data.getLast? ≠ some '\n') :
    normalize_content fn content true false false = content := by
  show clean_content content = content
  unfold clean_content
  rw [List.map_congr_left hl, List.map_id']
  rw [pySplitlines_eq_splitNl content.data he]
  by_cases hc : content.data = []
  · rw [if_pos hc]
    exact congrArg String.mk hc.symm
  · rw [if_neg hc, joinNl_splitNl]

/-- Witness for C6: a concrete clean-form text round-trips unchanged. -/
theorem C6_roundtrip_clean_form_witness :
    normalize_content "f.js" "ab\ncd" true false false = "ab\ncd" :=
  C6_roundtrip_clean_form "f.js" "ab\ncd" (by decide) (by decide) (by decide)

/-! ## Assembler lemmas shared by C2, C3, C4 -/

/-- Token total of the file records of one part. -/
def sumTokens (files : List (String × Nat)) : Nat :=
  (files.map (fun x => x.2)).sum

/-- Each loop iteration does one of three things: record a skipped/errored
file (state otherwise unchanged), append a whole rendering without sealing,
or append a whole rendering and seal the active part. -/
theorem concat_step_cases (cfg : ConcatArgs) (readf : String → Option String)
    (enc : Option (String → Option Nat)) (st : CState) (fo : String × String) :
    concat_step cfg readf enc st fo =
      { bufStr := st.bufStr, bufFiles := st.bufFiles, current_part := st.current_part,
        current_tokens := st.current_tokens, parts := st.parts,
        rows := st.rows ++ [(fo.1, none)] } ∨
    ∃ c t buf2, readf fo.1 = some c ∧
      t = count_tokens
            (normalize_content fo.1 c cfg.keep_comments cfg.line_numbers cfg.concise) enc ∧
      ((budget_exceeded cfg.max_tokens (st.current_tokens + t) = false ∧
          concat_step cfg readf enc st fo =
            { bufStr := buf2, bufFiles := st.bufFiles ++ [(fo.1, t)],
              current_part := st.current_part,
              current_tokens := st.current_tokens + t,
              parts := st.parts, rows := st.rows ++ [(fo.1, some t)] }) ∨
        (budget_exceeded cfg.max_tokens (st.current_tokens + t) = true ∧
          concat_step cfg readf enc st fo =
            { bufStr := "", bufFiles := [], current_part := st.current_part + 1,
              current_tokens := 0,
              parts := st.parts ++
                [{ name := cfg.output_base ++ "_part" ++ toString st.current_part ++ ".md",
                   buffer := buf2, files := st.bufFiles ++ [(fo.1, t)],
                   tokens := st.current_tokens + t }],
              rows := st.rows ++ [(fo.1, some t)] })) := by
  cases h : readf fo.1 with
  | none =>
      left
      simp only [concat_step, h]
  | some c =>
      by_cases hs : pyStripChars c.data = []
      · left
        simp only [concat_step, h, hs, if_pos]
      · by_cases hb : budget_exceeded cfg.max_tokens (st.current_tokens +
            count_tokens (normalize_content fo.1 c cfg.keep_comments cfg.line_numbers
              cfg.concise) enc) = true
        · right
          refine ⟨c, _, st.bufStr ++ render_block cfg st.bufStr fo.1 fo.2
            (normalize_content fo.1 c cfg.keep_comments cfg.line_numbers cfg.concise),
            rfl, rfl, Or.inr ⟨hb, ?_⟩⟩
          simp [concat_step, h, hs, hb]
        · right
          refine ⟨c, _, st.bufStr ++ render_block cfg st.bufStr fo.1 fo.2
            (normalize_content fo.1 c cfg.keep_comments cfg.line_numbers cfg.concise),
            rfl, rfl, Or.inl ⟨by simpa using hb, ?_⟩⟩
          simp only [concat_step, h]
          simp [hs, hb]

/-- The fold of the loop, named for reuse. -/
def concat_fold (cfg : ConcatArgs) (readf : String → Option String)
    (encoding : Option (String → Option Nat)) (filenames : List (String × String)) :
    CState :=
  filenames.foldl (concat_step cfg readf encoding)
    { bufStr := "", bufFiles := [], current_part := 1, current_tokens := 0,
      parts := [], rows := [] }

theorem concat_files_rows (cfg : ConcatArgs) (readf : String → Option String)
    (enc : Option (String → Option Nat)) (filenames : List (String × String)) :
    (concat_files cfg readf enc filenames).rows = (concat_fold cfg readf enc filenames).rows := by
  unfold concat_files concat_fold
  dsimp only
  split <;> rfl

theorem concat_files_parts (cfg : ConcatArgs) (readf : String → Option String)
    (enc : Option (String → Option Nat)) (filenames : List (String × String)) :
    (concat_files cfg readf enc filenames).parts = (concat_fold cfg readf enc filenames).parts := by
  unfold concat_files concat_fold
  dsimp only
  split <;> rfl

theorem concat_files_finalPart (cfg : ConcatArgs) (readf : String → Option String)
    (enc : Option (String → Option Nat)) (filenames : List (String × String)) :
    ∀ p, (concat_files cfg readf enc filenames).finalPart = some p →
      p.files = (concat_fold cfg readf enc filenames).bufFiles ∧
      p.tokens = (concat_fold cfg readf enc filenames).current_tokens := by
  intro p
  unfold concat_files concat_fold
  dsimp only
  split
  · intro h; cases h
  · intro h
    cases h
    exact ⟨rfl, rfl⟩

/-! ## C3 — whole-file packing against the token budget -/

/-- Scenario stream: `a.js` normalizes to `"alpha"` (10 tokens), `b.js` to
`"beta"` (8 tokens). -/
def scnReadf : String → Option String := fun f =>
  if f = "a.js" then some "alpha" else if f = "b.js" then some "beta" else none

/-- Scenario tokenizer. -/
def scnEnc : Option (String → Option Nat) :=
  some (fun s => if s = "alpha" then some 10 else if s = "beta" then some 8 else some 0)

/-- Scenario flags: `max_tokens=9`, no rewriting options. -/
def scnCfg : ConcatArgs :=
  { output_base := "prompt", max_tokens := some 9, keep_comments := true,
    line_numbers := false, show_full_path := false, show_path := false, concise := false }

/-- The loop invariant for a configured budget `b ≥ 1`. -/
def BudgetInv (b : Nat) (st : CState) : Prop :=
  st.current_tokens = sumTokens st.bufFiles ∧
  st.current_tokens ≤ b ∧
  ∀ p ∈ st.parts,
    b < p.tokens ∧ p.tokens = sumTokens p.files ∧
    ∃ pre last, p.files = pre ++ [last] ∧ sumTokens pre ≤ b

theorem budget_inv_step (cfg : ConcatArgs) (readf : String → Option String)
    (enc : Option (String → Option Nat)) (b : Nat)
    (hcfg : cfg.max_tokens = some b) (hb : 1 ≤ b) :
    ∀ st fo, BudgetInv b st → BudgetInv b (concat_step cfg readf enc st fo) := by
  intro st fo hinv
  obtain ⟨hsum, hle, hparts⟩ := hinv
  rcases concat_step_cases cfg readf enc st fo with heq | ⟨c, t, buf2, _, _, hcase⟩
  · rw [heq]
    exact ⟨hsum, hle, hparts⟩
  · rcases hcase with ⟨hfalse, heq⟩ | ⟨htrue, heq⟩
    · rw [heq]
      refine ⟨?_, ?_, hparts⟩
      · simp [sumTokens, hsum]
      · rw [hcfg] at hfalse
        simp only [budget_exceeded] at hfalse
        by_cases hb0 : b = 0
        · omega
        · rw [if_neg hb0] at hfalse
          simpa using hfalse
    · rw [heq]
      refine ⟨by simp [sumTokens], by simpa using hb, ?_⟩
      intro p hp
      rcases List.mem_append.mp hp with hold | hnew
      · exact hparts p hold
      · rcases List.mem_singleton.mp hnew with rfl
        rw [hcfg] at htrue
        simp only [budget_exceeded] at htrue
        by_cases hb0 : b = 0
        · omega
        · rw [if_neg hb0] at htrue
          refine ⟨by simpa using htrue, by simp [sumTokens, hsum], st.bufFiles, (fo.1, t), rfl, ?_⟩
          rw [← hsum]; exact hle

/-- C3: with a configured budget `B ≥ 1`, every part sealed inside the loop
holds a sequence of whole files whose token counts sum to the part's total;
that total first exceeded `B` only at the part's last file (the total before
the last append was within budget), and the end-of-stream part is within
budget.  Concretely, for `a.js` (10 tokens) then `b.js` (8 tokens) with
`max_tokens=9`, part 1 holds only `a.js` with total 10 and part 2 holds only
`b.js`, flushed non-empty at end of stream with total 8. -/
theorem C3_whole_file_budget_packing :
    (∀ (cfg : ConcatArgs) (readf : String → Option String)
        (enc : Option (String → Option Nat)) (files : List (String × String)) (b : Nat),
        cfg.max_tokens = some b → 1 ≤ b →
        (∀ p ∈ (concat_files cfg readf enc files).parts,
            b < p.tokens ∧ p.tokens = sumTokens p.files ∧
            ∃ pre last, p.files = pre ++ [last] ∧ sumTokens pre ≤ b) ∧
        (∀ p, (concat_files cfg readf enc files).finalPart = some p →
            p.tokens = sumTokens p.files ∧ p.tokens ≤ b)) ∧
    (concat_files scnCfg scnReadf scnEnc [("a.js", "a.js"), ("b.js", "b.js")]).parts.map
        (fun p => (p.name, p.files, p.tokens))
      = [("prompt_part1.md", [("a.js", 10)], 10)] ∧
    (concat_files scnCfg scnReadf scnEnc [("a.js", "a.js"), ("b.js", "b.js")]).finalPart.map
        (fun p => (p.name, p.files, p.tokens))
      = some ("prompt_part2.md", [("b.js", 8)], 8) := by
  refine ⟨?_, by decide, by decide⟩
  intro cfg readf enc files b hcfg hb
  have hinv : BudgetInv b (concat_fold cfg readf enc files) := by
    apply foldl_preserves (concat_step cfg readf enc) (BudgetInv b)
      (budget_inv_step cfg readf enc b hcfg hb)
    exact ⟨rfl, Nat.zero_le b, by intro p hp; cases hp⟩
  obtain ⟨hsum, hle, hparts⟩ := hinv
  constructor
  · intro p hp
    rw [concat_files_parts] at hp
    exact hparts p hp
  · intro p hp
    obtain ⟨hf, ht⟩ := concat_files_finalPart cfg readf enc files p hp
    rw [ht, hf, hsum]
    exact ⟨rfl, hsum ▸ hle⟩

/-- Witness for C3: the general budget invariant applied to the concrete
scenario — the sealed part's total exceeds the budget of 9 and is the sum of
the whole files it contains. -/
theorem C3_whole_file_budget_packing_witness :
    ∀ p ∈ (concat_files scnCfg scnReadf scnEnc [("a.js", "a.js"), ("b.js", "b.js")]).parts,
      9 < p.tokens ∧ p.tokens = sumTokens p.files :=
  fun p hp =>
    ⟨((C3_whole_file_budget_packing.1 scnCfg scnReadf scnEnc
        [("a.js", "a.js"), ("b.js", "b.js")] 9 rfl (by decide)).1 p hp).1,
     ((C3_whole_file_budget_packing.1 scnCfg scnReadf scnEnc
        [("a.js", "a.js"), ("b.js", "b.js")] 9 rfl (by decide)).1 p hp).2.1⟩

/-! ## C4 — the end-of-run summary row

`current_tokens` is reset to 0 each time a part is sealed, and the closing
summary row prints `current_tokens` next to the final output filename — i.e.
the token total of the *final part only*, not the grand total over the whole
stream. -/

/-- C4 counterexample: in the 10-token/8-token scenario with `max_tokens=9`,
the final summary row reports 8 tokens while the grand total across all files
(sum of every row's token count, skipped files contributing zero) is 18. -/
theorem C4_summary_not_grand_total_cex :
    (concat_files scnCfg scnReadf scnEnc [("a.js", "a.js"), ("b.js", "b.js")]).finalPart.map
        (fun p => p.tokens) = some 8 ∧
    ((concat_files scnCfg scnReadf scnEnc [("a.js", "a.js"), ("b.js", "b.js")]).rows.map
        (fun r => r.2.getD 0)).sum = 18 ∧
    (8 : Nat) ≠ 18 := by
  refine ⟨by decide, by decide, by decide⟩

/-- C4 amended: the summary row reports the final part's token total, which
equals the grand total across all files exactly when no part was sealed
during the loop; in particular with no `max_tokens` budget nothing is sealed
early and the reported number is the grand total. -/
theorem C4_final_summary_last_part_total (cfg : ConcatArgs)
    (readf : String → Option String) (enc : Option (String → Option Nat))
    (files : List (String × String)) (h : cfg.max_tokens = none) :
    (concat_files cfg readf enc files).parts = [] ∧
    ∀ t, (concat_files cfg readf enc files).finalPart.map (fun p => p.tokens) = some t →
      t = ((concat_files cfg readf enc files).rows.map (fun r => r.2.getD 0)).sum := by
  have hinv : (concat_fold cfg readf enc files).parts = [] ∧
      (concat_fold cfg readf enc files).current_tokens =
        ((concat_fold cfg readf enc files).rows.map (fun r => r.2.getD 0)).sum := by
    apply foldl_preserves (concat_step cfg readf enc)
      (fun st => st.parts = [] ∧
        st.current_tokens = (st.rows.map (fun r => r.2.getD 0)).sum)
    · intro st fo hst
      obtain ⟨hp, hc⟩ := hst
      rcases concat_step_cases cfg readf enc st fo with heq | ⟨c, t, buf2, _, _, hcase⟩
      · rw [heq]
        exact ⟨hp, by simp [hc]⟩
      · rcases hcase with ⟨_, heq⟩ | ⟨htrue, heq⟩
        · rw [heq]
          exact ⟨hp, by simp [hc]⟩
        · rw [h] at htrue
          simp [budget_exceeded] at htrue
    · exact ⟨rfl, rfl⟩
  constructor
  · rw [concat_files_parts]; exact hinv.1
  · intro t ht
    cases hfp : (concat_files cfg readf enc files).finalPart with
    | none => rw [hfp] at ht; cases ht
    | some p =>
        rw [hfp] at ht
        simp only [Option.map_some'] at ht
        obtain ⟨-, htok⟩ := concat_files_finalPart cfg readf enc files p hfp
        obtain rfl : p.tokens = t := Option.some.inj ht
        rw [htok, concat_files_rows]
        exact hinv.2

/-- Witness for C4 amended: with the same stream but no budget, the summary
row carries the grand total 18. -/
theorem C4_final_summary_last_part_total_witness :
    (18 : Nat) = ((concat_files { scnCfg with max_tokens := none } scnReadf scnEnc
        [("a.js", "a.js"), ("b.js", "b.js")]).rows.map (fun r => r.2.getD 0)).sum :=
  (C4_final_summary_last_part_total { scnCfg with max_tokens := none } scnReadf scnEnc
    [("a.js", "a.js"), ("b.js", "b.js")] rfl).2 18 (by decide)

/-! ## C2 — tokenizer unavailability

`import tiktoken` failing would abort the interpreter before the script runs,
but the modelled fragment (lines 284-287) catches every failure of
`tiktoken.encoding_for_model('gpt-4')` and continues with `encoding = None`;
`count_tokens` then catches the `AttributeError` per file and returns 0.  So a
tokenizer-lookup failure (e.g. unknown model) is precisely *downgraded* to
zero token counts, contradicting the claim. -/

/-- A run environment for C2: a directory with one non-empty file. -/
def fsC2 : FileSystem :=
  { isdir := fun s => s = "/in", isfile := fun _ => false,
    tree := fun _ => .mk ["f.txt"] [], manifestLines := fun _ => [],
    readfile := fun s => if s = "/in/f.txt" then some "hello" else none }

/-- The argparse defaults with input `/in`. -/
def argsC2 : MainArgs :=
  { input_path := "/in", output := "prompt", line_numbers := false,
    keep_comments := true, show_full_path := false, show_path := false,
    max_tokens := none, concise := false }

/-- C2 counterexample: when `tiktoken.encoding_for_model` fails, the except
block sets `encoding = None` and the run continues: the single file is
processed with a token count of 0, an output document is written, and the run
completes with exit code 0 — the failure is downgraded, not fatal. -/
theorem C2_tokenizer_downgraded_cex :
    setup_encoding (.error ()) = (none : Option (String → Option Nat)) ∧
    (main_run 1 fsC2 (.error ()) argsC2).exitCode = 0 ∧
    (main_run 1 fsC2 (.error ()) argsC2).result.rows = [("/in/f.txt", some 0)] ∧
    (main_run 1 fsC2 (.error ()) argsC2).result.returned = some "prompt.md" := by
  refine ⟨rfl, rfl, by decide, by decide⟩

/-- C2 amended: under a failed tokenizer lookup the whole run still completes
with exit code 0, and every processed file's token count is zero (skipped
files report none). -/
theorem C2_tokenizer_failure_run_completes (fuel : Nat) (fs : FileSystem)
    (args : MainArgs) :
    (main_run fuel fs (.error ()) args).exitCode = 0 ∧
    ∀ r ∈ (main_run fuel fs (.error ()) args).result.rows,
      r.2 = none ∨ r.2 = some 0 := by
  constructor
  · rfl
  · have hrows : (main_run fuel fs (.error ()) args).result.rows =
        (concat_fold
          { output_base := args.output, max_tokens := args.max_tokens,
            keep_comments := args.keep_comments, line_numbers := args.line_numbers,
            show_full_path := args.show_full_path, show_path := args.show_path,
            concise := args.concise }
          fs.readfile none (gather_files_from_input fuel fs args.input_path).1).rows := by
      exact concat_files_rows _ _ _ _
    rw [hrows]
    apply foldl_preserves (concat_step _ fs.readfile none)
      (fun st => ∀ r ∈ st.rows, r.2 = none ∨ r.2 = some 0)
    · intro st fo hst
      rcases concat_step_cases _ fs.readfile none st fo with heq | ⟨c, t, buf2, _, ht, hcase⟩
      · rw [heq]
        intro r hr
        rcases List.mem_append.mp hr with h1 | h2
        · exact hst r h1
        · rcases List.mem_singleton.mp h2 with rfl
          exact Or.inl rfl
      · have ht0 : t = 0 := ht
        have hrow : ∀ (st2 : CState), st2.rows = st.rows ++ [(fo.1, some t)] →
            ∀ r ∈ st2.rows, r.2 = none ∨ r.2 = some 0 := by
          intro st2 h2 r hr
          rw [h2] at hr
          rcases List.mem_append.mp hr with h1 | h3
          · exact hst r h1
          · rcases List.mem_singleton.mp h3 with rfl
            exact Or.inr (by rw [ht0])
        rcases hcase with ⟨_, heq⟩ | ⟨_, heq⟩
        · rw [heq]; exact hrow _ rfl
        · rw [heq]; exact hrow _ rfl
    · intro r hr; cases hr

/-- Witness for C2 amended: the invariant at the concrete run — the lone row
of `fsC2` carries a zero count. -/
theorem C2_tokenizer_failure_run_completes_witness :
    (("/in/f.txt", some 0) : String × Option Nat).2 = none ∨
    (("/in/f.txt", some 0) : String × Option Nat).2 = some 0 :=
  (C2_tokenizer_failure_run_completes 1 fsC2 argsC2).2 ("/in/f.txt", some 0) (by decide)

/-! ## C7 — missing input path

`gather_files_from_input` has no error branch: when the input is neither a
directory nor a file it falls through and returns `([], None)`; the main body
then runs `concat_files` over the empty list and the script ends normally
with exit code 0, writing nothing. -/

/-- A file system on which every path is missing. -/
def fs7 : FileSystem :=
  { isdir := fun _ => false, isfile := fun _ => false,
    tree := fun _ => .mk [] [], manifestLines := fun _ => [],
    readfile := fun _ => none }

/-- The argparse defaults with a missing input path. -/
def args7 : MainArgs :=
  { input_path := "missing", output := "prompt", line_numbers := false,
    keep_comments := false, show_full_path := false, show_path := false,
    max_tokens := none, concise := false }

/-- A healthy tokenizer, for isolating the missing-input behaviour. -/
def tkOk : Except Unit (String → Option Nat) := .ok (fun _ => some 1)

/-- C7 counterexample: with a missing input path the resolver returns
`([], None)` and the run completes with exit code 0 and no output — not the
claimed fatal non-zero exit. -/
theorem C7_missing_input_exit_zero_cex :
    gather_files_from_input 1 fs7 "missing" = ([], none) ∧
    (main_run 1 fs7 tkOk args7).exitCode = 0 ∧
    (main_run 1 fs7 tkOk args7).result.returned = none ∧
    (main_run 1 fs7 tkOk args7).result.parts = [] := by
  refine ⟨rfl, rfl, rfl, rfl⟩

/-- C7 amended: a missing input path is not fatal — the resolver yields an
empty stream and the run completes with exit code 0, producing no rows, no
sealed parts and no output file. -/
theorem C7_missing_input_empty_run (fuel : Nat) (fs : FileSystem)
    (tk : Except Unit (String → Option Nat)) (args : MainArgs)
    (hd : fs.isdir args.input_path = false) (hf : fs.isfile args.input_path = false) :
    (main_run fuel fs tk args).source_files = [] ∧
    (main_run fuel fs tk args).exitCode = 0 ∧
    (main_run fuel fs tk args).result.rows = [] ∧
    (main_run fuel fs tk args).result.parts = [] ∧
    (main_run fuel fs tk args).result.finalPart = none ∧
    (main_run fuel fs tk args).result.returned = none := by
  have hg : gather_files_from_input fuel fs args.input_path = ([], none) := by
    unfold gather_files_from_input
    rw [hd, hf]
    simp
  refine ⟨?_, rfl, ?_, ?_, ?_, ?_⟩ <;>
    simp [main_run, hg, concat_files]

/-- Witness for C7 amended: the concrete missing-path run. -/
theorem C7_missing_input_empty_run_witness :
    (main_run 1 fs7 tkOk args7).result.finalPart = none :=
  (C7_missing_input_empty_run 1 fs7 tkOk args7 rfl rfl).2.2.2.2.1

/-! ## C5 — manifest indirection -/

/-- The target set by one raw manifest line, if it is a `TARGET:` line. -/
def target_of_line (rawLine : String) : Option String :=
  let line := pyStripStr rawLine
  if line = "" then none
  else if "TARGET:".data.isPrefixOf line.data then some (target_of_stripped line)
  else none

/-- The target in force after reading the given lines (the last `TARGET:`
directive seen, if any). -/
def last_target (lines : List String) : Option String :=
  lines.foldl
    (fun acc l => match target_of_line l with | some t => some t | none => acc) none

/-- Does a raw manifest line denote a path entry (nonblank, not a `TARGET:`
directive, not a `#` comment)? -/
def is_path_line (rawLine : String) : Bool :=
  let line := pyStripStr rawLine
  !(line = "") && !("TARGET:".data.isPrefixOf line.data) &&
    !("#".data.isPrefixOf line.data)

/-- Positional reading of the manifest grammar: the `i`-th line, when a path
line, resolves against the last `TARGET:` directive occurring strictly before
it, and displays as its trimmed text. -/
def manifestSpec (lines : List String) : List (String × String) :=
  (List.range lines.length).filterMap (fun i =>
    let raw := lines.getD i ""
    if is_path_line raw then
      some (resolve_path (last_target (lines.take i)) (pyStripStr raw), pyStripStr raw)
    else none)

theorem last_target_append_single (ls : List String) (l : String) :
    last_target (ls ++ [l]) =
      match target_of_line l with
      | some t => some t
      | none => last_target ls := by
  unfold last_target
  rw [List.foldl_append]
  rfl

theorem gather_manifest_append_single (ls : List String) (l : String) :
    gather_files_from_manifest (ls ++ [l]) =
      manifest_step (gather_files_from_manifest ls) l := by
  unfold gather_files_from_manifest
  rw [List.foldl_append]
  rfl

theorem filterMap_congr_mem {α β : Type _} (l : List α) (f g : α → Option β)
    (h : ∀ a ∈ l, f a = g a) : l.filterMap f = l.filterMap g := by
  induction l with
  | nil => rfl
  | cons a as ih =>
      rw [List.filterMap_cons, List.filterMap_cons, h a (List.mem_cons_self a as),
        ih (fun b hb => h b (List.mem_cons_of_mem a hb))]

theorem manifestSpec_append_single (ls : List String) (l : String) :
    manifestSpec (ls ++ [l]) =
      manifestSpec ls ++
        (if is_path_line l then
          [(resolve_path (last_target ls) (pyStripStr l), pyStripStr l)]
        else []) := by
  unfold manifestSpec
  rw [List.length_append, List.length_singleton, List.range_succ,
    List.filterMap_append]
  congr 1
  · apply filterMap_congr_mem
    intro i hi
    have hlt : i < ls.length := List.mem_range.mp hi
    rw [List.getD_append _ _ _ _ hlt, List.take_append_of_le_length (Nat.le_of_lt hlt)]
  · rw [List.filterMap_cons, List.filterMap_nil]
    have h1 : (ls ++ [l]).getD ls.length "" = l := by
      rw [List.getD_append_right ls [l] "" ls.length (Nat.le_refl _)]
      simp
    have h2 : (ls ++ [l]).take ls.length = ls := by
      rw [List.take_append_of_le_length (Nat.le_refl _), List.take_length]
    rw [h1, h2]
    by_cases hp : is_path_line l = true <;> simp [hp]

/-- The fold agrees with the positional reading, for both the produced
entries and the final target. -/
theorem gather_manifest_eq_spec (lines : List String) :
    gather_files_from_manifest lines = (manifestSpec lines, last_target lines) := by
  induction lines using List.reverseRecOn with
  | nil => rfl
  | append_singleton ls l ih =>
      rw [gather_manifest_append_single, manifestSpec_append_single,
        last_target_append_single, ih]
      show manifest_step (manifestSpec ls, last_target ls) l = _
      unfold manifest_step target_of_line is_path_line
      by_cases h0 : pyStripStr l = ""
      · simp [h0]
      · by_cases ht : "TARGET:".data.isPrefixOf (pyStripStr l).data
        · simp [h0, ht]
        · by_cases hc : "#".data.isPrefixOf (pyStripStr l).data
          · simp [h0, ht, hc]
          · simp only [h0, ht, hc, if_neg, if_false, Bool.not_false, Bool.not_true,
              Bool.and_self, if_true, decide_False, decide_True]
            simp [h0, ht, hc, resolve_path]

theorem last_target_none (ls : List String)
    (h : ∀ l ∈ ls, target_of_line l = none) : last_target ls = none := by
  have haux : ∀ (acc : Option String), acc = none →
      ls.foldl (fun acc l => match target_of_line l with
        | some t => some t | none => acc) acc = none := by
    induction ls with
    | nil => intro acc hacc; exact hacc
    | cons a as ih =>
        intro acc hacc
        have ha : target_of_line a = none := h a (List.mem_cons_self a as)
        show as.foldl _ (match target_of_line a with
          | some t => some t | none => acc) = none
        rw [ha, hacc]
        exact ih (fun l hl => h l (List.mem_cons_of_mem a hl)) none rfl
  exact haux none rfl

/-- C5 counterexample: the manifest line `" x.txt"` (leading space) produces
`display_path = "x.txt"`, the *trimmed* line — not the line as written, since
the loop strips each line before classifying and recording it. -/
theorem C5_display_path_stripped_cex :
    (gather_files_from_manifest ["TARGET: /root/a", " x.txt"]).1
      = [("/root/a/x.txt", "x.txt")] ∧
    (" x.txt" : String) ≠ "x.txt" := by
  refine ⟨by decide, by decide⟩

/-- C5 amended: every path line resolves per `resolve_path` — to
`join(current target, line stripped of leading path separators)` when the
current target is set *and nonempty*, and to the line verbatim otherwise
(Python's `if current_target` truthiness test, under which the empty root set
by a bare `TARGET:` line behaves as unset) — where the current target is the
last `TARGET:` directive before the line (so directives affect only
subsequent lines); its `display_path` is the line trimmed of surrounding
whitespace; a path line before any directive has
`resolved_path = display_path`; the four-line example resolves as claimed,
and after a bare `TARGET:` directive the line `/x.txt` is kept verbatim. -/
theorem C5_manifest_resolution :
    (∀ lines, gather_files_from_manifest lines = (manifestSpec lines, last_target lines)) ∧
    (∀ lines, (∀ l ∈ lines, target_of_line l = none) →
        ∀ e ∈ (gather_files_from_manifest lines).1, e.1 = e.2) ∧
    gather_files_from_manifest
        ["TARGET: /root/a", "x.txt", "TARGET: /root/b", "y.txt"]
      = ([("/root/a/x.txt", "x.txt"), ("/root/b/y.txt", "y.txt")], some "/root/b") ∧
    gather_files_from_manifest ["TARGET:", "/x.txt"]
      = ([("/x.txt", "/x.txt")], some "") := by
  refine ⟨gather_manifest_eq_spec, ?_, by decide, by decide⟩
  intro lines h e he
  rw [gather_manifest_eq_spec] at he
  simp only at he
  unfold manifestSpec at he
  rcases List.mem_filterMap.mp he with ⟨i, hi, hsome⟩
  by_cases hp : is_path_line (lines.getD i "")
  · rw [if_pos hp] at hsome
    have htake : last_target (lines.take i) = none :=
      last_target_none _ (fun l hl => h l (List.take_subset i lines hl))
    rw [htake] at hsome
    cases hsome
    rfl
  · rw [if_neg hp] at hsome
    cases hsome

/-- Witness for C5 amended: entries before any `TARGET:` directive keep
`resolved_path = display_path` on a concrete manifest. -/
theorem C5_manifest_resolution_witness :
    ∀ e ∈ (gather_files_from_manifest ["a.txt", "# note", "b/c.txt"]).1, e.1 = e.2 :=
  C5_manifest_resolution.2.1 ["a.txt", "# note", "b/c.txt"] (by decide)

/-! ## C8 — directory traversal order -/

/-- A directory whose OS listing reports `b.txt` before `a.txt`. -/
def exTree : FSTree := .mk ["b.txt", "a.txt"] []

theorem walkDirFuel_mono (fuel : Nat) :
    ∀ (fuel2 : Nat), fuel ≤ fuel2 → ∀ (p : String) (t : FSTree) (q : String),
      q ∈ walkDirFuel fuel p t → q ∈ walkDirFuel fuel2 p t := by
  induction fuel with
  | zero => intro fuel2 _ p t q hq; cases hq
  | succ f ih =>
      intro fuel2 hle p t q hq
      cases fuel2 with
      | zero => exact absurd hle (by omega)
      | succ f2 =>
          cases t with
          | mk files dirs =>
              simp only [walkDirFuel, List.mem_append] at hq ⊢
              rcases hq with h1 | h2
              · exact Or.inl h1
              · right
                rcases List.mem_flatMap.mp h2 with ⟨dt, hdt, hq2⟩
                exact List.mem_flatMap.mpr
                  ⟨dt, hdt, ih f2 (Nat.le_of_succ_le_succ hle) _ _ _ hq2⟩

/-- C8 counterexample: `gather_files`' walk yields the files in the OS listing
order — here `d/b.txt` then `d/a.txt`, which is not sorted by name — no
sorting is applied at any level. -/
theorem C8_walk_not_sorted_cex :
    walkDirFuel 1 "d" exTree = ["d/b.txt", "d/a.txt"] ∧
    ¬ ("d/b.txt" : String) ≤ "d/a.txt" := by
  refine ⟨by decide, ?_⟩
  rw [String.le_iff_toList_le]
  decide

/-- C8 amended: the traversal enumerates exactly the files of the directory
tree (soundness for every fuel, completeness for sufficient fuel), in the
listing order the file system reports — deterministic only relative to that
order, with no sorting by name. -/
theorem C8_walk_listing_order :
    (∀ (fuel : Nat) (p : String) (t : FSTree) (q : String),
        q ∈ walkDirFuel fuel p t → HasFile p t q) ∧
    (∀ (p : String) (t : FSTree) (q : String), HasFile p t q →
        ∃ fuel, q ∈ walkDirFuel fuel p t) ∧
    walkDirFuel 1 "d" exTree = ["d/b.txt", "d/a.txt"] := by
  refine ⟨?_, ?_, by decide⟩
  · intro fuel
    induction fuel with
    | zero => intro p t q hq; cases hq
    | succ f ih =>
        intro p t q hq
        cases t with
        | mk files dirs =>
            rcases List.mem_append.mp hq with h1 | h2
            · rcases List.mem_map.mp h1 with ⟨fn, hfn, rfl⟩
              exact HasFile.file hfn
            · rcases List.mem_flatMap.mp h2 with ⟨dt, hdt, hq2⟩
              exact HasFile.sub hdt (ih _ _ _ hq2)
  · intro p t q hf
    induction hf with
    | file hfn =>
        exact ⟨1, List.mem_append.mpr (Or.inl (List.mem_map.mpr ⟨_, hfn, rfl⟩))⟩
    | sub hdt _ ih =>
        rcases ih with ⟨f0, hf0⟩
        exact ⟨f0 + 1, List.mem_append.mpr (Or.inr (List.mem_flatMap.mpr
          ⟨_, hdt, hf0⟩))⟩

/-- Witness for C8 amended: soundness applied at the concrete tree shows the
first enumerated path really is a file of the tree. -/
theorem C8_walk_listing_order_witness : HasFile "d" exTree "d/b.txt" :=
  C8_walk_listing_order.1 1 "d" exTree "d/b.txt" (by decide)

/-! ## C9 — version-control and ignore-spec exclusions

`makePrompt.gather_files` (the resolver's directory mode) walks everything:
no `.git` pruning and no ignore file is ever consulted.  Those exclusions
live only in `getPaths.list_all_files_in_directory`, the manifest-building
tool. -/

/-- A directory containing a `.git` subdirectory with a file inside. -/
def gitTree : FSTree := .mk ["a.txt"] [(".git", .mk ["config"] [])]

/-- A file system whose directory `/in` contains `.git/config`. -/
def fsC9 : FileSystem :=
  { isdir := fun s => s = "/in", isfile := fun _ => false,
    tree := fun _ => gitTree, manifestLines := fun _ => [],
    readfile := fun _ => none }

/-- C9 counterexample: for a directory input, the resolver of `makePrompt`
returns `.git`-internal paths — `/in/.git/config` is enumerated, so the
claimed exclusion does not happen in the resolver. -/
theorem C9_makeprompt_includes_git_cex :
    (gather_files_from_input 2 fsC9 "/in").1
      = [("/in/a.txt", "/in/a.txt"), ("/in/.git/config", "/in/.git/config")] ∧
    ("/in/.git/config", "/in/.git/config") ∈ (gather_files_from_input 2 fsC9 "/in").1 := by
  refine ⟨by decide, by decide⟩

/-- C9 amended: the exclusions are implemented in `getPaths`:
`list_all_files_in_directory` never yields a path matched by the loaded
ignore spec, and every path it yields is a file of the tree with all `.git`
directory entries pruned at every level. -/
theorem filter_entry_eq {α : Type _} (c1 c2 : Bool) (v q : α)
    (h : (if c1 = true then none else if c2 = true then some v else none) = some q) :
    q = v ∧ c1 = false := by
  cases c1
  · cases c2
    · simp at h
    · simp at h; exact ⟨h.symm, rfl⟩
  · simp at h

theorem C9_getpaths_exclusions :
    (∀ (fuel : Nat) (rel : String) (t : FSTree) (g : String → Bool)
        (ft : Option (List String)) (q : String),
        q ∈ list_all_files_in_directory fuel rel t (some g) ft → g q = false) ∧
    (∀ (fuel : Nat) (rel : String) (t : FSTree) (spec : Option (String → Bool))
        (ft : Option (List String)) (q : String),
        q ∈ list_all_files_in_directory fuel rel t spec ft →
          q ∈ walkDirFuel fuel rel (pruneGitFuel fuel t)) := by
  constructor
  · intro fuel
    induction fuel with
    | zero => intro rel t g ft q hq; cases hq
    | succ f ih =>
        intro rel t g ft q hq
        cases t with
        | mk files dirs =>
            rcases List.mem_append.mp hq with h1 | h2
            · rcases List.mem_filterMap.mp h1 with ⟨file, _, hsome⟩
              obtain ⟨hq2, hc1⟩ := filter_entry_eq _ _ _ q hsome
              rw [hq2]
              exact hc1
            · rcases List.mem_flatMap.mp h2 with ⟨dt, _, hq2⟩
              exact ih _ _ _ _ _ hq2
  · intro fuel
    induction fuel with
    | zero => intro rel t spec ft q hq; cases hq
    | succ f ih =>
        intro rel t spec ft q hq
        cases t with
        | mk files dirs =>
            simp only [list_all_files_in_directory, List.mem_append] at hq
            simp only [pruneGitFuel, walkDirFuel, List.mem_append]
            rcases hq with h1 | h2
            · left
              rcases List.mem_filterMap.mp h1 with ⟨file, hfile, hsome⟩
              obtain ⟨hq2, -⟩ := filter_entry_eq _ _ _ q hsome
              rw [hq2]
              exact List.mem_map.mpr ⟨file, hfile, rfl⟩
            · right
              rcases List.mem_flatMap.mp h2 with ⟨dt, hdt, hq2⟩
              refine List.mem_flatMap.mpr ⟨(dt.1, pruneGitFuel f dt.2), ?_, ?_⟩
              · exact List.mem_map.mpr ⟨dt, hdt, rfl⟩
              · exact ih _ _ _ _ _ hq2

/-- Witness for C9 amended: on a tree where the ignore spec matches
`sub/c.txt`, the listed path `a.txt` is reported unmatched by the spec. -/
theorem C9_getpaths_exclusions_witness :
    (fun p => decide (p = "sub/c.txt")) "a.txt" = false :=
  C9_getpaths_exclusions.1 2 ""
    (FSTree.mk ["a.txt", "b.log"] [("sub", .mk ["c.txt"] [])])
    (fun p => decide (p = "sub/c.txt")) (some [".txt"]) "a.txt" (by decide)

end MakePrompt
